import Mathlib

/-!
Shallow embedding of the DDR SSQ step-chart decoder and the ddr2osu
converter (`src/ddr/ssq.rs`, `src/converter/ddr2osu.rs`, `src/utils.rs`),
together with theorems settling the frozen claims about it.

Modelling conventions:
- `u8`/`u16`/`u32` values are `Nat` (all arithmetic on them in the source
  stays in range on byte-sized inputs; the raw deltas read as `i32` are `Int`);
- `f32` beat positions and beat lengths are `ℚ`; the `as u32` saturating
  float-to-integer cast is `(·.floor.toNat)`;
- fallible code returns `Except Error`;
- the byte-cursor plumbing (reading a count followed by that many array
  elements) is abstracted: parse functions take the already-split arrays.
-/

namespace Brd

/-- `utils::get_nth_bit`: `((byte & (1 << n)) >> n) != 0`. -/
def getNthBit (byte n : Nat) : Bool := (byte / 2 ^ n) % 2 ≠ 0

/-- `utils::byte_to_bitarray`: the eight bits of a byte, least significant first. -/
def byteToBitarray (byte : Nat) : List Bool :=
  (List.range 8).map (getNthBit byte)

instance {ε α : Type} [DecidableEq ε] [DecidableEq α] : DecidableEq (Except ε α) :=
  fun x y =>
    match x, y with
    | .ok a, .ok b =>
        if h : a = b then .isTrue (by rw [h])
        else .isFalse (by intro he; cases he; exact h rfl)
    | .error a, .error b =>
        if h : a = b then .isTrue (by rw [h])
        else .isFalse (by intro he; cases he; exact h rfl)
    | .ok _, .error _ => .isFalse (by intro he; cases he)
    | .error _, .ok _ => .isFalse (by intro he; cases he)

/-- `ssq::Error` (the variants reachable in the embedded code). -/
inductive Error where
  | notEnoughFreezeData
  | invalidPlayerCount (players : Nat)
  | invalidDifficulty (difficulty : Nat)
deriving DecidableEq

/-- `ssq::MEASURE_LENGTH`. -/
def MEASURE_LENGTH : ℚ := 4096

/-- `ssq::measure_to_beats`: `4.0 * measure / MEASURE_LENGTH`. -/
def measureToBeats (measure : Nat) : ℚ :=
  4 * (measure : ℚ) / MEASURE_LENGTH

/-- `ssq::PlayerRow`: activation state of one player's four columns. -/
structure PlayerRow where
  left : Bool
  down : Bool
  up : Bool
  right : Bool
deriving DecidableEq

/-- `impl From<u8> for PlayerRow`: bits 0..3 of the byte. -/
def PlayerRow.fromByte (byte : Nat) : PlayerRow :=
  let columns := byteToBitarray byte
  { left := columns.getD 0 false
    down := columns.getD 1 false
    up := columns.getD 2 false
    right := columns.getD 3 false }

/-- `impl Into<Vec<bool>> for PlayerRow`. -/
def PlayerRow.toVec (r : PlayerRow) : List Bool :=
  [r.left, r.down, r.up, r.right]

/-- `ssq::Row`. -/
inductive Row where
  | single (row : PlayerRow)
  | double (row1 row2 : PlayerRow)
deriving DecidableEq

/-- `Row::new`: low nibble for player 1, high nibble (shifted down) for player 2. -/
def Row.new (byte players : Nat) : Except Error Row :=
  match players with
  | 1 => .ok (.single (PlayerRow.fromByte byte))
  | 2 => .ok (.double (PlayerRow.fromByte byte) (PlayerRow.fromByte (byte / 16)))
  | _ => .error (.invalidPlayerCount players)

/-- `impl Into<Vec<bool>> for Row`. -/
def Row.toVec : Row → List Bool
  | .single row => row.toVec
  | .double row1 row2 => row1.toVec ++ row2.toVec

/-- `Row::count_active`: number of active columns across all players. -/
def Row.countActive (row : Row) : Nat :=
  (row.toVec.map fun x => if x then 1 else 0).sum

/-- The inner loop of `Row::intersects` on one player's pair of column
vectors: some position is active in both (`*self_col && self_col == other_col`). -/
def playerVecsIntersect (a b : List Bool) : Bool :=
  (a.zip b).any fun p => p.1 && p.2

/-- `Row::intersects`; rows with different player count never intersect. -/
def Row.intersects : Row → Row → Bool
  | .single a, .single b => playerVecsIntersect a.toVec b.toVec
  | .double a1 a2, .double b1 b2 =>
      playerVecsIntersect a1.toVec b1.toVec || playerVecsIntersect a2.toVec b2.toVec
  | _, _ => false

/-- `ssq::Level` (metadata about a level: player count and ordered difficulty). -/
structure Level where
  players : Nat
  difficulty : Nat
deriving DecidableEq

/-- `Level::ssq_to_ordered`: maps raw SSQ difficulty codes to ordered values. -/
def Level.ssqToOrdered (ssqDifficulty : Nat) : Except Error Nat :=
  match ssqDifficulty with
  | 4 => .ok 0
  | 1 => .ok 1
  | 2 => .ok 2
  | 3 => .ok 3
  | 6 => .ok 4
  | _ => .error (.invalidDifficulty ssqDifficulty)

/-- `Level::new`: validates the player count, then reorders the difficulty
(the `?` on `ssq_to_ordered` is the explicit error match). -/
def Level.new (players ssqDifficulty : Nat) : Except Error Level :=
  if players ≠ 1 ∧ players ≠ 2 then
    .error (.invalidPlayerCount players)
  else
    match Level.ssqToOrdered ssqDifficulty with
    | .error e => .error e
    | .ok difficulty => .ok { players := players, difficulty := difficulty }

/-- `Level::relative_difficulty`: `difficulty / 4.0`. -/
def Level.relativeDifficulty (l : Level) : ℚ :=
  (l.difficulty : ℚ) / 4

/-- `impl TryFrom<u16> for Level`: players from the low nibble divided by 4,
difficulty from the high byte. -/
def Level.tryFromU16 (parameter : Nat) : Except Error Level :=
  let players := parameter % 16 / 4
  let difficulty := parameter / 256 % 256
  Level.new players difficulty

/-- `ssq::TempoChange`. -/
structure TempoChange where
  start_ms : Nat
  start_beats : ℚ
  end_beats : ℚ
  beat_length : ℚ
deriving DecidableEq

/-- The loop body of `TempoChanges::parse` (`for i in 1..count`), carrying the
previous raw entry `(m0, t0)` and the accumulated `elapsed_ms`/`elapsed_beats`.
The absolute values of `i32` deltas are `Int.natAbs`. -/
def buildTempoChanges (ticksPerSecond : Nat) :
    Int → Int → Nat → ℚ → List (Int × Int) → List TempoChange
  | _, _, _, _, [] => []
  | m0, t0, elapsedMs, elapsedBeats, (m1, t1) :: rest =>
      let deltaMeasure : Nat := (m1 - m0).natAbs
      let deltaTicks : Nat := (t1 - t0).natAbs
      let lengthMs := 1000 * deltaTicks / ticksPerSecond
      let lengthBeats := measureToBeats deltaMeasure
      let beatLength := (lengthMs : ℚ) / lengthBeats
      { start_ms := elapsedMs
        start_beats := elapsedBeats
        end_beats := elapsedBeats + lengthBeats
        beat_length := beatLength }
        :: buildTempoChanges ticksPerSecond m1 t1 (elapsedMs + lengthMs)
            (elapsedBeats + lengthBeats) rest

/-- `TempoChanges::parse`, over the two already-read equal-length `i32` arrays.
The first entry only anchors the first delta (the loop starts at `i = 1`). -/
def TempoChanges.parse (ticksPerSecond : Nat) (measure tempoData : List Int) :
    List TempoChange :=
  match measure.zip tempoData with
  | [] => []
  | (m0, t0) :: rest => buildTempoChanges ticksPerSecond m0 t0 0 0 rest

theorem playerVecsIntersect_comm (a b : List Bool) :
    playerVecsIntersect a b = playerVecsIntersect b a := by
  induction a generalizing b with
  | nil => cases b <;> rfl
  | cons x xs ih =>
      cases b with
      | nil => rfl
      | cons y ys =>
          simp [playerVecsIntersect, List.zip_cons_cons, List.any_cons] at *
          rw [Bool.and_comm]
          rw [show (List.any (xs.zip ys) fun p => p.1 && p.2)
                = (List.any (ys.zip xs) fun p => p.1 && p.2) from ih ys]

/-- C10: Row intersection is symmetric: for every pair of rows `a` and `b`
(of any player-count variants), `intersects a b` returns the same boolean as
`intersects b a`. -/
theorem row_intersects_symm (a b : Row) :
    a.intersects b = b.intersects a := by
  cases a <;> cases b <;>
    simp [Row.intersects, playerVecsIntersect_comm]

/-- C9: For a fixed valid player count, decoding the raw difficulty codes
4, 1, 2, 3, 6 yields the ordered difficulty levels 0..4, hence strictly
increasing relative_difficulty values 0, 1/4, 1/2, 3/4, 1; any other raw
difficulty code is a hard `InvalidDifficulty` decode error. -/
theorem difficulty_codes_ordered :
    ([4, 1, 2, 3, 6].map Level.ssqToOrdered
      = [Except.ok 0, Except.ok 1, Except.ok 2, Except.ok 3, Except.ok 4]) ∧
    ([4, 1, 2, 3, 6].map (Level.new 1) = [Except.ok ⟨1, 0⟩, Except.ok ⟨1, 1⟩,
      Except.ok ⟨1, 2⟩, Except.ok ⟨1, 3⟩, Except.ok ⟨1, 4⟩]) ∧
    ([0, 1, 2, 3, 4].map (fun k => Level.relativeDifficulty ⟨1, k⟩)
      = [(0 : ℚ), 1/4, 1/2, 3/4, 1]) ∧
    ∀ d, d ≠ 4 → d ≠ 1 → d ≠ 2 → d ≠ 3 → d ≠ 6 →
      Level.ssqToOrdered d = .error (.invalidDifficulty d) := by
  refine ⟨by decide, by decide, ?_, ?_⟩
  · norm_num [Level.relativeDifficulty]
  · intro d h4 h1 h2 h3 h6
    rcases d with _ | _ | _ | _ | _ | _ | _ | d <;> simp_all [Level.ssqToOrdered]

/-- Witness for C9: raw code 5 is rejected. -/
theorem difficulty_codes_ordered_witness :
    Level.ssqToOrdered 5 = .error (.invalidDifficulty 5) :=
  difficulty_codes_ordered.2.2.2 5 (by decide) (by decide) (by decide) (by decide)
    (by decide)

/-- Default used with `List.getD` on tempo maps. -/
def tcDefault : TempoChange := ⟨0, 0, 0, 0⟩

theorem buildTempoChanges_length (tps : Nat) (l : List (Int × Int)) :
    ∀ (m0 t0 : Int) (ms : Nat) (beats : ℚ),
      (buildTempoChanges tps m0 t0 ms beats l).length = l.length := by
  induction l with
  | nil => intro m0 t0 ms beats; rfl
  | cons p rest ih =>
      intro m0 t0 ms beats
      cases p with
      | mk m1 t1 => simp [buildTempoChanges, ih]

theorem buildTempoChanges_chain (tps : Nat) (l : List (Int × Int)) :
    ∀ (m0 t0 : Int) (ms : Nat) (beats : ℚ) (i : Nat),
      i + 1 < (buildTempoChanges tps m0 t0 ms beats l).length →
      ((buildTempoChanges tps m0 t0 ms beats l).getD i tcDefault).end_beats
        = ((buildTempoChanges tps m0 t0 ms beats l).getD (i + 1) tcDefault).start_beats ∧
      ((buildTempoChanges tps m0 t0 ms beats l).getD i tcDefault).start_ms
        ≤ ((buildTempoChanges tps m0 t0 ms beats l).getD (i + 1) tcDefault).start_ms := by
  induction l with
  | nil => intro m0 t0 ms beats i h; simp [buildTempoChanges] at h
  | cons p rest ih =>
      intro m0 t0 ms beats i h
      cases p with
      | mk m1 t1 =>
          cases i with
          | zero =>
              cases rest with
              | nil => simp [buildTempoChanges] at h
              | cons q rest2 =>
                  cases q with
                  | mk m2 t2 =>
                      constructor
                      · simp [buildTempoChanges]
                      · simp [buildTempoChanges]
          | succ j =>
              have hlen : j + 1 < (buildTempoChanges tps m1 t1
                  (ms + 1000 * (t1 - t0).natAbs / tps)
                  (beats + measureToBeats (m1 - m0).natAbs) rest).length := by
                simp [buildTempoChanges] at h
                simpa [buildTempoChanges_length] using h
              have := ih m1 t1 (ms + 1000 * (t1 - t0).natAbs / tps)
                (beats + measureToBeats (m1 - m0).natAbs) j hlen
              simpa [buildTempoChanges] using this

/-- C5: For every tempo map produced by `TempoChanges::parse` and every index
`i`, segment `i`'s `end_beats` equals segment `i+1`'s `start_beats`, and
`start_ms` is non-decreasing; the first raw array entry is not itself a
segment (the map has one segment fewer than the raw entry count). -/
theorem tempo_map_invariant (tps : Nat) (measure tempoData : List Int) :
    (∀ i, i + 1 < (TempoChanges.parse tps measure tempoData).length →
      ((TempoChanges.parse tps measure tempoData).getD i tcDefault).end_beats
        = ((TempoChanges.parse tps measure tempoData).getD (i + 1) tcDefault).start_beats ∧
      ((TempoChanges.parse tps measure tempoData).getD i tcDefault).start_ms
        ≤ ((TempoChanges.parse tps measure tempoData).getD (i + 1) tcDefault).start_ms) ∧
    (TempoChanges.parse tps measure tempoData).length
      = (measure.zip tempoData).length - 1 := by
  constructor
  · intro i
    unfold TempoChanges.parse
    cases hz : measure.zip tempoData with
    | nil => intro h; exact (Nat.not_lt_zero _ h).elim
    | cons p rest =>
        cases p with
        | mk m0 t0 =>
            intro h
            exact buildTempoChanges_chain tps rest m0 t0 0 0 i h
  · unfold TempoChanges.parse
    cases hz : measure.zip tempoData with
    | nil => rfl
    | cons p rest =>
        cases p with
        | mk m0 t0 =>
            show (buildTempoChanges tps m0 t0 0 0 rest).length
              = ((m0, t0) :: rest).length - 1
            simp [buildTempoChanges_length]

/-- Witness for C5: a concrete three-entry tempo chunk, checked at `i = 0`. -/
theorem tempo_map_invariant_witness :
    ((TempoChanges.parse 1000 [0, 4096, 8192] [0, 1000, 3000]).getD 0 tcDefault).end_beats
      = ((TempoChanges.parse 1000 [0, 4096, 8192] [0, 1000, 3000]).getD 1 tcDefault).start_beats ∧
    ((TempoChanges.parse 1000 [0, 4096, 8192] [0, 1000, 3000]).getD 0 tcDefault).start_ms
      ≤ ((TempoChanges.parse 1000 [0, 4096, 8192] [0, 1000, 3000]).getD 1 tcDefault).start_ms :=
  (tempo_map_invariant 1000 [0, 4096, 8192] [0, 1000, 3000]).1 0 (by decide)

/-- `ssq::Step` (the decoded gameplay events). The source's `Freeze` fields are
`start`/`end`; `end` is a Lean keyword, so the second field is `stop`. -/
inductive Step where
  | step (beats : ℚ) (row : Row)
  | freeze (start stop : ℚ) (row : Row)
  | shock (beats : ℚ)
deriving DecidableEq

/-- `ssq::Chart`. -/
structure Chart where
  difficulty : Level
  steps : List Step
deriving DecidableEq

/-- The body of `Chart::find_last`'s downward index loop
(`for i in (0..steps.len()).rev()`), entered with the exclusive upper bound. -/
def Chart.findLastAux (steps : List Step) (row : Row) : Nat → Option Nat
  | 0 => none
  | i + 1 =>
      match steps.getD i (Step.shock 0) with
      | Step.step _ stepRow =>
          if stepRow.intersects row then some i else Chart.findLastAux steps row i
      | _ => Chart.findLastAux steps row i

/-- `Chart::find_last`: index of the most recent normal step whose row
intersects the given row. -/
def Chart.findLast (steps : List Step) (row : Row) : Option Nat :=
  Chart.findLastAux steps row steps.length

/-- The record loop of `Chart::parse` (`for step in 0..count`), over the zipped
`(measure, raw mask)` records, carrying `parsed_steps`, `freeze_steps` and the
remaining freeze-data iterator; `?` failures are the explicit error branches.
Returns the accumulated steps and freeze-start indices. -/
def Chart.parseSteps (players : Nat) :
    List (Nat × Nat) → List Step → List Nat → List Nat →
    Except Error (List Step × List Nat)
  | [], parsedSteps, freezeSteps, _ => .ok (parsedSteps, freezeSteps)
  | (measure, mask) :: rest, parsedSteps, freezeSteps, freezeData =>
      let beats := measureToBeats measure
      if mask = 0xff ∨ mask = 0xf then
        -- shock (all eight bits for double, the first four for single)
        Chart.parseSteps players rest (parsedSteps ++ [Step.shock beats])
          freezeSteps freezeData
      else if mask = 0 then
        -- extra data: pull the next (columns, extra_type) pair
        match freezeData with
        | [] => .error .notEnoughFreezeData
        | [_] => .error .notEnoughFreezeData
        | columns :: extraType :: freezeRest =>
            if extraType = 1 then
              match Row.new columns players with
              | .error e => .error e
              | .ok row =>
                  if row.countActive ≠ 1 then
                    -- multi-column freeze: not implemented, skipped
                    Chart.parseSteps players rest parsedSteps freezeSteps freezeRest
                  else
                    match Chart.findLast parsedSteps row with
                    | some lastStep =>
                        let startBeats :=
                          match parsedSteps.getD lastStep (Step.shock 0) with
                          | Step.step b _ => b
                          | _ => 0   -- `unreachable!()` in the source
                        Chart.parseSteps players rest
                          (parsedSteps ++ [Step.freeze startBeats beats row])
                          (freezeSteps ++ [lastStep]) freezeRest
                    | none =>
                        -- no previous step found: add a normal step instead
                        Chart.parseSteps players rest
                          (parsedSteps ++ [Step.step beats row])
                          freezeSteps freezeRest
            else
              -- unknown extra step type: ignored
              Chart.parseSteps players rest parsedSteps freezeSteps freezeRest
      else
        -- normal step
        match Row.new mask players with
        | .error e => .error e
        | .ok row =>
            Chart.parseSteps players rest (parsedSteps ++ [Step.step beats row])
              freezeSteps freezeData

/-- `Vec::dedup`: removes consecutive duplicates. -/
def dedupConsecutive : List Nat → List Nat
  | [] => []
  | [x] => [x]
  | x :: y :: rest =>
      if x = y then dedupConsecutive (y :: rest)
      else x :: dedupConsecutive (y :: rest)

/-- `Chart::parse`, over the already-read arrays: the measure offsets, the raw
mask bytes and the trailing freeze data (whose zero padding is skipped). The
final loop removes the freeze-starting steps in reverse push order
(`freeze_steps.iter().rev()`), `Vec::remove` being `List.eraseIdx`. -/
def Chart.parse (parameter : Nat) (measures masks freezeDataRaw : List Nat) :
    Except Error Chart :=
  match Level.tryFromU16 parameter with
  | .error e => .error e
  | .ok difficulty =>
      match Chart.parseSteps difficulty.players (measures.zip masks) [] []
          (freezeDataRaw.dropWhile fun x => x == 0) with
      | .error e => .error e
      | .ok (parsedSteps, freezeSteps) =>
          .ok { difficulty := difficulty
                steps := ((dedupConsecutive freezeSteps).reverse).foldl
                  (fun l i => l.eraseIdx i) parsedSteps }

theorem playerRow_fromByte_eq (b : Nat) : PlayerRow.fromByte b =
    ⟨getNthBit b 0, getNthBit b 1, getNthBit b 2, getNthBit b 3⟩ := rfl

/-- C1 (counterexample): a 2-player chart (parameter 264 = players 2, Basic)
whose single record has mask 0x0F decodes to a Shock, not a Tap. -/
theorem shock_sentinel_counterexample :
    Chart.parse 264 [0] [15] [] = .ok ⟨⟨2, 1⟩, [Step.shock 0]⟩ := by
  norm_num [Chart.parse, Level.tryFromU16, Level.new, Level.ssqToOrdered,
    Chart.parseSteps, Chart.findLast, Chart.findLastAux, Row.new,
    playerRow_fromByte_eq, getNthBit, Row.countActive, Row.toVec,
    PlayerRow.toVec, Row.intersects, playerVecsIntersect, dedupConsecutive,
    measureToBeats, MEASURE_LENGTH, List.zip, List.zipWith, List.dropWhile_cons,
    List.dropWhile_nil, List.eraseIdx, List.getD]

/-- C1 (amended): in step-chunk decoding a raw record is emitted as a Shock
exactly when its mask is 0xFF or 0x0F, regardless of the chart's declared
player count; a non-zero mask other than these two sentinels is decoded as a
Row and emitted as a Tap. -/
theorem step_classification (players : Nat) (rest : List (Nat × Nat))
    (parsedSteps : List Step) (freezeSteps freezeData : List Nat)
    (measure mask : Nat) :
    (mask = 0xff ∨ mask = 0xf →
      Chart.parseSteps players ((measure, mask) :: rest) parsedSteps freezeSteps
          freezeData
        = Chart.parseSteps players rest
            (parsedSteps ++ [Step.shock (measureToBeats measure)]) freezeSteps
            freezeData) ∧
    (mask ≠ 0xff → mask ≠ 0xf → mask ≠ 0 →
      ∀ row, Row.new mask players = .ok row →
      Chart.parseSteps players ((measure, mask) :: rest) parsedSteps freezeSteps
          freezeData
        = Chart.parseSteps players rest
            (parsedSteps ++ [Step.step (measureToBeats measure) row]) freezeSteps
            freezeData) := by
  constructor
  · intro h
    simp only [Chart.parseSteps]
    rw [if_pos h]
  · intro hff hf h0 row hrow
    simp only [Chart.parseSteps]
    rw [if_neg (by simp [hff, hf]), if_neg h0, hrow]

/-- Witness for C1 (amended): mask 0x0F with player count 2 takes the Shock
branch. -/
theorem step_classification_witness :
    ((15 : Nat) = 0xff ∨ (15 : Nat) = 0xf) ∧
    Chart.parseSteps 2 [(0, 15)] [] [] []
      = Chart.parseSteps 2 [] ([] ++ [Step.shock (measureToBeats 0)]) [] [] :=
  ⟨Or.inr rfl, (step_classification 2 [] [] [] [] 0 15).1 (Or.inr rfl)⟩

/-- C4: the raw record sequence of a normal step on column 1 (down) at beat 0
followed by a freeze-end extra record (type 1) on the same column at beat 4
decodes to exactly one Hold from beat 0 to beat 4 on that column and zero
leftover Taps. -/
theorem freeze_reconciliation :
    Chart.parse 260 [0, 4096] [2, 0] [2, 1]
      = .ok ⟨⟨1, 1⟩, [Step.freeze 0 4 (Row.single ⟨false, true, false, false⟩)]⟩ := by
  norm_num [Chart.parse, Level.tryFromU16, Level.new, Level.ssqToOrdered,
    Chart.parseSteps, Chart.findLast, Chart.findLastAux, Row.new,
    playerRow_fromByte_eq, getNthBit, Row.countActive, Row.toVec,
    PlayerRow.toVec, Row.intersects, playerVecsIntersect, dedupConsecutive,
    measureToBeats, MEASURE_LENGTH, List.zip, List.zipWith, List.dropWhile_cons,
    List.dropWhile_nil, List.eraseIdx, List.getD]

/-- C3 (code evaluated at the failing input): two Taps (down at beat 1, left at
beat 0) are subsumed by two freezes found in descending tap order, so the
recorded indices are [1, 0]; reversing gives ascending removal order, which
deletes the Tap at index 0 and then — indices having shifted — the down Hold
instead of the down Tap. The subsumed Tap `step 1 down` survives in the output
and the Hold `freeze 1 2 down` is lost. -/
theorem freeze_removal_out_of_order :
    Chart.parse 260 [0, 1024, 2048, 3072] [1, 2, 0, 0] [2, 1, 1, 1]
      = .ok ⟨⟨1, 1⟩,
          [Step.step 1 (Row.single ⟨false, true, false, false⟩),
           Step.freeze 0 3 (Row.single ⟨true, false, false, false⟩)]⟩ := by
  norm_num [Chart.parse, Level.tryFromU16, Level.new, Level.ssqToOrdered,
    Chart.parseSteps, Chart.findLast, Chart.findLastAux, Row.new,
    playerRow_fromByte_eq, getNthBit, Row.countActive, Row.toVec,
    PlayerRow.toVec, Row.intersects, playerVecsIntersect, dedupConsecutive,
    measureToBeats, MEASURE_LENGTH, List.zip, List.zipWith, List.dropWhile_cons,
    List.dropWhile_nil, List.eraseIdx, List.getD]

/-- `ssq::SSQ`. -/
structure SSQ where
  tempoChanges : List TempoChange
  charts : List Chart
deriving DecidableEq

/-- One length-prefixed chunk of an SSQ file, after the cursor has read its
type, parameter and payload (the payload already split into the arrays the
respective parser reads). Chunk type 1 is tempo, type 3 is a step chunk,
anything else falls to the catch-all arm. -/
inductive Chunk where
  | tempo (parameter : Nat) (measure tempoData : List Int)
  | step (parameter : Nat) (measures masks freezeData : List Nat)
  | other (chunkType parameter : Nat)
deriving DecidableEq

/-- The chunk dispatch of `SSQ::parse`'s loop body. In the step arm the source
first evaluates `Level::try_from(parameter)?` (inside the log statement) and
then `Chart::parse(&data, parameter)?`; both `?`s are explicit matches. -/
def SSQ.processChunk (s : SSQ) : Chunk → Except Error SSQ
  | .tempo parameter measure tempoData =>
      .ok { s with tempoChanges := TempoChanges.parse parameter measure tempoData }
  | .step parameter measures masks freezeData =>
      match Level.tryFromU16 parameter with
      | .error e => .error e
      | .ok _ =>
          match Chart.parse parameter measures masks freezeData with
          | .error e => .error e
          | .ok chart => .ok { s with charts := s.charts ++ [chart] }
  | .other _ _ => .ok s

/-- `SSQ::parse`'s chunk loop (terminated by the zero-length chunk, which ends
the list). -/
def SSQ.parseChunks : List Chunk → SSQ → Except Error SSQ
  | [], s => .ok s
  | c :: rest, s =>
      match SSQ.processChunk s c with
      | .error e => .error e
      | .ok s2 => SSQ.parseChunks rest s2

/-- `SSQ::parse`. -/
def SSQ.parse (chunks : List Chunk) : Except Error SSQ :=
  SSQ.parseChunks chunks { tempoChanges := [], charts := [] }

/-- C7 (counterexample): an SSQ file whose second step chunk has an invalid
difficulty code loses its first (valid) chart and never reaches its third
(valid) chunk: the whole parse returns the typed error and no charts at all
are produced. -/
theorem ssq_parse_counterexample :
    SSQ.parse [.step 260 [0] [1] [], .step 1284 [] [] [], .step 260 [0] [1] []]
      = .error (.invalidDifficulty 5) := by decide

/-- C7 (amended): a structural or semantic decode error in one chunk
propagates as a typed failure out of `SSQ::parse` and aborts the whole file:
whatever chunks follow are never processed and no charts are returned, so
other charts in the same source file are not produced (callers can only
continue with the next file). -/
theorem chunk_error_aborts_file (c : Chunk) (rest : List Chunk) (s : SSQ)
    (e : Error) (h : SSQ.processChunk s c = .error e) :
    SSQ.parseChunks (c :: rest) s = .error e := by
  simp only [SSQ.parseChunks, h]

/-- Witness for C7 (amended): a failing step chunk followed by a valid one. -/
theorem chunk_error_aborts_file_witness :
    SSQ.processChunk ⟨[], []⟩ (.step 1284 [] [] [])
      = .error (.invalidDifficulty 5) ∧
    SSQ.parseChunks [.step 1284 [] [] [], .step 260 [0] [1] []] ⟨[], []⟩
      = .error (.invalidDifficulty 5) :=
  ⟨by decide, chunk_error_aborts_file _ _ _ _ (by decide)⟩

/-- `ddr2osu::ShockAction`. -/
inductive ShockAction where
  | ignore
  | step
deriving DecidableEq

/-- `ddr2osu::ShockStepGenerator`. -/
structure ShockStepGenerator where
  last : Nat
  columns : Nat
  mode : ShockAction
deriving DecidableEq

/-- `Iterator::next` for `ShockStepGenerator`; the mutation of `self.last` is
returned as the second component. -/
def ShockStepGenerator.next (g : ShockStepGenerator) :
    Option (List Nat) × ShockStepGenerator :=
  match g.mode with
  | .ignore => (none, g)
  | .step =>
      let columns :=
        if g.last = 0 ∨ g.last = 3 then [0, 3]
        else if g.last = 1 ∨ g.last = 2 then [1, 2]
        else if g.last = 4 ∨ g.last = 7 then [4, 7]
        else if g.last = 5 ∨ g.last = 6 then [5, 6]
        else []
      (some columns, { g with last := (g.last + 1) % g.columns })

/-- `ShockStepGenerator::new`. -/
def ShockStepGenerator.new (columns : Nat) (mode : ShockAction) :
    ShockStepGenerator :=
  { last := 0, columns := columns, mode := mode }

/-- Invoke the generator `n` consecutive times, collecting the outputs and the
final state. -/
def ShockStepGenerator.run (g : ShockStepGenerator) :
    Nat → List (Option (List Nat)) × ShockStepGenerator
  | 0 => ([], g)
  | n + 1 =>
      let r := g.next
      let t := r.2.run n
      (r.1 :: t.1, t.2)

/-- C2 (counterexample): a Step-policy generator seeded with 4 columns does
not cycle {0,3}, {1,2}, {0,3}, {1,2} over four invocations. -/
theorem shock_generator_counterexample :
    ¬ ((ShockStepGenerator.new 4 .step).run 4).1
        = [some [0, 3], some [1, 2], some [0, 3], some [1, 2]] := by decide

/-- C2 (amended): the Step-policy generator emits the pair containing its
counter value ({0,3} for counter 0 or 3, {1,2} for 1 or 2, {4,7} for 4 or 7,
{5,6} for 5 or 6), advancing the counter by one per invocation modulo the
column count: with 4 columns four consecutive invocations yield
{0,3}, {1,2}, {1,2}, {0,3} and return the generator to its initial state, and
with 8 columns eight invocations yield
{0,3}, {1,2}, {1,2}, {0,3}, {4,7}, {5,6}, {5,6}, {4,7} likewise. -/
theorem shock_generator_cycle :
    (((ShockStepGenerator.new 4 .step).run 4).1
        = [some [0, 3], some [1, 2], some [1, 2], some [0, 3]] ∧
      ((ShockStepGenerator.new 4 .step).run 4).2 = ShockStepGenerator.new 4 .step) ∧
    (((ShockStepGenerator.new 8 .step).run 8).1
        = [some [0, 3], some [1, 2], some [1, 2], some [0, 3],
           some [4, 7], some [5, 6], some [5, 6], some [4, 7]] ∧
      ((ShockStepGenerator.new 8 .step).run 8).2
        = ShockStepGenerator.new 8 .step) := by decide

/-- `ddr2osu::get_time_from_beats`: linear scan of the tempo map; an
infinitely short segment exactly covering the queried beat answers with its
start time, otherwise the first segment whose end lies beyond the query
interpolates; `as u32` on the `f32` product is the saturating truncation
`(Rat.floor ·).toNat`. -/
def getTimeFromBeats (beats : ℚ) : List TempoChange → Option Nat
  | [] => none
  | tc :: rest =>
      if |beats - tc.start_beats| < 1/1000 ∧ |beats - tc.end_beats| < 1/1000 then
        some tc.start_ms
      else if beats < tc.end_beats then
        some (tc.start_ms + ((beats - tc.start_beats) * tc.beat_length).floor.toNat)
      else
        getTimeFromBeats beats rest

theorem rat_floor_eq_intFloor (q : ℚ) : q.floor = ⌊q⌋ := rfl

/-- C6 (counterexample): in a tempo map with a stop (an instant segment) at
beat 0 followed by a normal segment also starting at beat 0, resolving beat 0
returns the stop's start time 0, not the following segment's start time 500 —
so a query at a segment's start boundary does not always return that
segment's `start_ms`. -/
theorem resolve_at_boundary_counterexample :
    getTimeFromBeats 0 (TempoChanges.parse 1000 [0, 0, 4096] [0, 500, 1500])
        = some 0 ∧
    ((TempoChanges.parse 1000 [0, 0, 4096] [0, 500, 1500]).getD 1 tcDefault).start_beats
        = 0 ∧
    ((TempoChanges.parse 1000 [0, 0, 4096] [0, 500, 1500]).getD 1 tcDefault).start_ms
        = 500 := by
  norm_num [TempoChanges.parse, buildTempoChanges, getTimeFromBeats,
    measureToBeats, MEASURE_LENGTH, List.zip, List.zipWith, List.getD]

/-- C6 (amended): resolving a query beat exactly equal to segment `k`'s start
boundary returns segment `k`'s `start_ms`, provided segment `k`'s end is not
before its start and no earlier segment already matches the query (each
earlier segment's `end_beats` is at most the query and no earlier segment
passes the within-0.001 degenerate test at it); a degenerate segment whose
start and end beats are both within 0.001 of the query is matched — returning
its `start_ms` — before the general range test, so instant segments are never
skipped (and a stop placed exactly at the boundary answers instead of the
segment that follows it). -/
theorem resolve_at_boundary (tcs : List TempoChange) (k : Nat) (beats : ℚ)
    (hk : k < tcs.length)
    (hq : beats = (tcs.getD k tcDefault).start_beats)
    (hse : (tcs.getD k tcDefault).start_beats ≤ (tcs.getD k tcDefault).end_beats)
    (hprev : ∀ j, j < k →
      (tcs.getD j tcDefault).end_beats ≤ beats ∧
      ¬(|beats - (tcs.getD j tcDefault).start_beats| < 1/1000 ∧
        |beats - (tcs.getD j tcDefault).end_beats| < 1/1000)) :
    getTimeFromBeats beats tcs = some (tcs.getD k tcDefault).start_ms := by
  induction tcs generalizing k with
  | nil => exact absurd hk (Nat.not_lt_zero k)
  | cons tc rest ih =>
      cases k with
      | zero =>
          simp only [List.getD_cons_zero] at hq hse ⊢
          by_cases hdeg : |beats - tc.start_beats| < 1/1000 ∧
              |beats - tc.end_beats| < 1/1000
          · simp only [getTimeFromBeats]
            rw [if_pos hdeg]
          · have h1 : |beats - tc.start_beats| < 1/1000 := by
              rw [hq, sub_self, abs_zero]; norm_num
            have h2 : (1 : ℚ)/1000 ≤ |beats - tc.end_beats| :=
              not_lt.mp fun h => hdeg ⟨h1, h⟩
            have habs : |beats - tc.end_beats| = tc.end_beats - beats := by
              rw [abs_sub_comm]
              exact abs_of_nonneg (by rw [hq]; linarith)
            have hlt : beats < tc.end_beats := by
              rw [habs] at h2; linarith
            simp only [getTimeFromBeats]
            rw [if_neg hdeg, if_pos hlt, hq, sub_self, zero_mul,
              rat_floor_eq_intFloor, Int.floor_zero, Int.toNat_zero,
              Nat.add_zero]
      | succ j =>
          have h0 := hprev 0 (Nat.succ_pos j)
          simp only [List.getD_cons_zero] at h0
          simp only [List.getD_cons_succ] at hq hse ⊢
          simp only [getTimeFromBeats]
          rw [if_neg h0.2, if_neg (not_lt.mpr h0.1)]
          refine ih j (Nat.lt_of_succ_lt_succ hk) hq hse fun i hi => ?_
          have := hprev (i + 1) (Nat.succ_lt_succ hi)
          simpa using this

/-- Witness for C6 (amended): beat 4 is segment 1's start boundary of a
two-segment map and resolves to its start time 1000. -/
theorem resolve_at_boundary_witness :
    getTimeFromBeats 4 [⟨0, 0, 4, 250⟩, ⟨1000, 4, 8, 250⟩] = some 1000 := by
  have h := resolve_at_boundary [⟨0, 0, 4, 250⟩, ⟨1000, 4, 8, 250⟩] 1 4
    (by decide) (by norm_num [List.getD]) (by norm_num [List.getD])
    (fun j hj => by
      interval_cases j
      constructor
      · norm_num [List.getD]
      · norm_num [List.getD])
  simpa [List.getD] using h

/-- Modelled from the spec: `beatmap::column_to_x` belongs to the external
beatmap serializer, whose source for the revision `ddr2osu.rs` calls is not in
the tree; the spec only requires some deterministic column assignment, so any
concrete column-to-x mapping serves. No claim depends on its value. -/
def columnToX (column columns : Nat) : Nat :=
  (512 * column + 256) / columns

/-- The target events built by `Step::to_hit_objects` (`beatmap::HitObject`
restricted to the two variants it constructs, carrying the fields that vary;
the decoration fields `hit_sound`, `hit_sample`, `new_combo`,
`skip_combo_colours` and `y = 192` are the same constants on every object). -/
inductive HitObject where
  | hitCircle (x y time : Nat)
  | hold (column columns time endTime : Nat)
deriving DecidableEq

/-- `Step::to_hit_objects`: per decoded event, the optional list of target
events (`None` when a needed beat fails to resolve) and the generator state
after the call (`&mut ShockStepGenerator` threaded explicitly). In the shock
arm the generator is advanced first; the `?` inside the per-column loop makes
an unresolvable beat return `None` only when the column list is non-empty. -/
def Step.toHitObjects (s : Step) (numColumns : Nat)
    (tempoChanges : List TempoChange) (g : ShockStepGenerator) :
    Option (List HitObject) × ShockStepGenerator :=
  match s with
  | .step beats row =>
      match getTimeFromBeats beats tempoChanges with
      | some time =>
          (some (row.toVec.enum.filterMap fun p =>
            if p.2 then some (.hitCircle (columnToX p.1 numColumns) 192 time)
            else none), g)
      | none => (none, g)
  | .freeze startBeats endBeats row =>
      match getTimeFromBeats startBeats tempoChanges,
          getTimeFromBeats endBeats tempoChanges with
      | some time, some endTime =>
          (some (row.toVec.enum.filterMap fun p =>
            if p.2 then some (.hold p.1 numColumns time endTime) else none), g)
      | _, _ => (none, g)
  | .shock beats =>
      let r := g.next
      match r.1.getD [] with
      | [] => (some [], r.2)
      | c :: cs =>
          match getTimeFromBeats beats tempoChanges with
          | some time =>
              (some ((c :: cs).map fun c =>
                .hitCircle (columnToX c numColumns) 192 time), r.2)
          | none => (none, r.2)

/-- The per-chart loop of `SSQ::to_beatmaps`: steps whose `to_hit_objects`
returns `Some` contribute their objects, the rest are skipped; the generator
state threads through. -/
def convertSteps (numColumns : Nat) (tempoChanges : List TempoChange) :
    List Step → ShockStepGenerator → List HitObject × ShockStepGenerator
  | [], g => ([], g)
  | s :: rest, g =>
      let r := s.toHitObjects numColumns tempoChanges g
      let t := convertSteps numColumns tempoChanges rest r.2
      (r.1.getD [] ++ t.1, t.2)

/-- C8: when beat-to-time resolution fails for a Tap it yields nothing; a Hold
yields target events exactly when both its start and end beats resolve, and
yields nothing when either endpoint fails; a step that yields nothing and
leaves the generator untouched is simply dropped — conversion of the chart's
remaining events continues unchanged. -/
theorem event_drop_recoverable (numColumns : Nat) (tcs : List TempoChange) :
    (∀ beats row g, getTimeFromBeats beats tcs = none →
      (Step.step beats row).toHitObjects numColumns tcs g = (none, g)) ∧
    (∀ startBeats endBeats row g,
      getTimeFromBeats startBeats tcs = none ∨
        getTimeFromBeats endBeats tcs = none →
      (Step.freeze startBeats endBeats row).toHitObjects numColumns tcs g
        = (none, g)) ∧
    (∀ startBeats endBeats row g,
      (((Step.freeze startBeats endBeats row).toHitObjects numColumns tcs
          g).1).isSome
        ↔ (getTimeFromBeats startBeats tcs).isSome ∧
          (getTimeFromBeats endBeats tcs).isSome) ∧
    (∀ s rest g, s.toHitObjects numColumns tcs g = (none, g) →
      convertSteps numColumns tcs (s :: rest) g
        = convertSteps numColumns tcs rest g) := by
  refine ⟨?_, ?_, ?_, ?_⟩
  · intro beats row g h
    simp [Step.toHitObjects, h]
  · intro startBeats endBeats row g h
    rcases h with h | h
    · simp [Step.toHitObjects, h]
    · rcases hs : getTimeFromBeats startBeats tcs with _ | t <;>
        simp [Step.toHitObjects, hs, h]
  · intro startBeats endBeats row g
    simp only [Step.toHitObjects]
    rcases hs : getTimeFromBeats startBeats tcs with _ | t <;>
      rcases he : getTimeFromBeats endBeats tcs with _ | u <;> simp
  · intro s rest g h
    simp [convertSteps, h]

/-- Witness for C8: with an empty (truncated) tempo map a Hold's endpoints do
not resolve, the Hold is dropped, and conversion continues with the remaining
events. -/
theorem event_drop_recoverable_witness :
    (Step.freeze 0 10 (Row.single ⟨true, false, false, false⟩)).toHitObjects 4 []
        (ShockStepGenerator.new 4 .step)
      = (none, ShockStepGenerator.new 4 .step) ∧
    convertSteps 4 []
        [Step.freeze 0 10 (Row.single ⟨true, false, false, false⟩)]
        (ShockStepGenerator.new 4 .step)
      = convertSteps 4 [] [] (ShockStepGenerator.new 4 .step) :=
  ⟨(event_drop_recoverable 4 []).2.1 0 10 (Row.single ⟨true, false, false, false⟩)
      (ShockStepGenerator.new 4 .step) (Or.inl rfl),
    (event_drop_recoverable 4 []).2.2.2
      (Step.freeze 0 10 (Row.single ⟨true, false, false, false⟩)) []
      (ShockStepGenerator.new 4 .step)
      ((event_drop_recoverable 4 []).2.1 0 10
        (Row.single ⟨true, false, false, false⟩)
        (ShockStepGenerator.new 4 .step) (Or.inl rfl))⟩

end Brd
